import Mathlib

/-!
Shallow embedding of the obsidian-hoarder plugin core (src/src/main.ts) and
proofs of the specification claims.  Strings are manipulated through their
underlying character lists so that every definition is executable and
kernel-evaluable on concrete inputs.
-/

namespace Hoarder

/-! ### Character classes used by `sanitizeFileName` -/

/-- Characters replaced by a dash in `sanitizeFileName`
(the JS character class of backslash, slash, colon, star, question mark,
double quote, angle brackets and pipe; main.ts line 446). -/
def isInvalidChar (c : Char) : Bool :=
  c == '\\' || c == '/' || c == ':' || c == '*' || c == '?' || c == '"' ||
  c == '<' || c == '>' || c == '|'

/-- Whitespace as matched by the JS regex class backslash-s
(main.ts line 447): space, tab, line feed, carriage return, vertical tab,
form feed and the Unicode space characters. -/
def isJsWs (c : Char) : Bool :=
  c == ' ' || c == '\t' || c == '\n' || c == '\r' || c == '\x0b' || c == '\x0c' ||
  c.val == 0xa0 || c.val == 0x1680 || (0x2000 ≤ c.val && c.val ≤ 0x200a) ||
  c.val == 0x2028 || c.val == 0x2029 || c.val == 0x202f || c.val == 0x205f ||
  c.val == 0x3000 || c.val == 0xfeff

/-! ### List-level string operations -/

/-- Replacement of every maximal run of characters satisfying `p` by the single
character `r`; this is the JS global `replace` of a one-character-class-plus
regex.  The flag records whether the previous character was part of a run. -/
def collapseAux (p : Char → Bool) (r : Char) : Bool → List Char → List Char
  | _, [] => []
  | inRun, c :: cs =>
    if p c then
      if inRun then collapseAux p r true cs
      else r :: collapseAux p r true cs
    else c :: collapseAux p r false cs

/-- Map applied by the first `replace` of `sanitizeFileName`: every invalid
character becomes a dash (main.ts line 446). -/
def replaceInvalid (l : List Char) : List Char :=
  l.map fun c => if isInvalidChar c then '-' else c

/-- Removal of one leading dash, the caret-dash half of the final trim regex of
`sanitizeFileName` (main.ts line 449). -/
def dropLeadDash (l : List Char) : List Char :=
  match l with
  | [] => []
  | c :: cs => if c = '-' then cs else c :: cs

/-- Removal of one trailing dash, the dash-dollar half of the final trim regex
of `sanitizeFileName` (main.ts line 449). -/
def dropTrailDash (l : List Char) : List Char :=
  (dropLeadDash l.reverse).reverse

/-- Index of the last occurrence of `c`, the model of JS `lastIndexOf`
(`none` plays the role of `-1`). -/
def lastIdxOf (c : Char) : List Char → Option Nat
  | [] => none
  | a :: as =>
    match lastIdxOf c as with
    | some i => some (i + 1)
    | none => if a = c then some 0 else none

/-- Length-bounding step of `sanitizeFileName` (main.ts lines 453-466): titles
longer than 36 characters are cut at 36, preferring the last dash past
position 18 as a word boundary. -/
def truncateTitle (l : List Char) : List Char :=
  if l.length ≤ 36 then l
  else
    match lastIdxOf '-' (l.take 36) with
    | some i => if 18 < i then (l.take 36).take i else l.take 36
    | none => l.take 36

/-- Title-sanitising pipeline of `sanitizeFileName` (main.ts lines 445-466):
replace invalid characters by dashes, collapse whitespace runs to single
dashes, collapse dash runs to single dashes, trim one leading and one
trailing dash, then bound the length. -/
def sanitizeTitleL (l : List Char) : List Char :=
  truncateTitle (dropTrailDash (dropLeadDash
    (collapseAux (fun c => c == '-') '-' false
      (collapseAux isJsWs '-' false (replaceInvalid l)))))

/-- Date component of a timestamp: models
`new Date(s).toISOString().split("T")[0]` for the UTC ISO-8601 timestamps the
remote API produces, on which it is the text before the first `T`
(main.ts lines 441-442). -/
def dateStemL (l : List Char) : List Char := l.takeWhile (fun c => c != 'T')

/-- Embedding of `sanitizeFileName` (main.ts lines 439-469): the date stem, a
dash, and the sanitised title. -/
def sanitizeFileName (title created_at : String) : String :=
  ⟨dateStemL created_at.data ++ '-' :: sanitizeTitleL title.data⟩

/-- Title portion of a sanitised stem: the stem minus the leading
ten-character `YYYY-MM-DD` date and its following dash. -/
def stemTitlePortion (stem : String) : String := ⟨stem.data.drop 11⟩

/-! ### Invariants of the sanitised title -/

/-- No two adjacent dashes. -/
def NoDoubleDash (l : List Char) : Prop :=
  l.Chain' (fun a b => ¬(a = '-' ∧ b = '-'))

/-- Shape of a fully sanitised title: no invalid characters, no whitespace,
no dash runs, no edge dashes, length at most 36. -/
def SanitizedL (l : List Char) : Prop :=
  (∀ c ∈ l, isInvalidChar c = false ∧ isJsWs c = false) ∧
  NoDoubleDash l ∧
  (∀ d, l.head? = some d → d ≠ '-') ∧
  (∀ d, l.getLast? = some d → d ≠ '-') ∧
  l.length ≤ 36

/-! ### Model of the host URL parser (external collaborator) -/

/-- Result of a successful parse by the host URL class: the fields the title
resolver reads. -/
structure UrlParts where
  pathname : String
  hostname : String
deriving DecidableEq

/-- Search for the first occurrence of `needle`, returning the text before it
and the text after it. -/
def breakOnSub (needle : List Char) : List Char → Option (List Char × List Char)
  | [] => if needle.isPrefixOf ([] : List Char) then some ([], []) else none
  | c :: cs =>
    if needle.isPrefixOf (c :: cs) then some ([], (c :: cs).drop needle.length)
    else
      match breakOnSub needle cs with
      | some (pre, post) => some (c :: pre, post)
      | none => none

/-- Origin of a URL as computed by the host platform's URL class, modelled for
hierarchical URLs without userinfo or default-port normalisation: the scheme,
the separator, and the authority up to the first slash, question mark or
hash.  Used by `downloadImage` (main.ts line 508). -/
def jsUrlOrigin (u : String) : String :=
  match breakOnSub "://".data u.data with
  | none => u
  | some (pre, post) =>
    ⟨pre ++ "://".data ++ post.takeWhile (fun c => c != '/' && c != '?' && c != '#')⟩

/-! ### Settings and bookmark data model -/

/-- Plugin settings as read by the sync engine (settings.ts interface plus the
`apiBaseUrl`, `apiPath` and `importContent` fields main.ts reads). -/
structure HoarderSettings where
  apiKey : String
  apiBaseUrl : String
  apiPath : String
  syncFolder : String
  attachmentsFolder : String
  syncIntervalMinutes : Nat
  lastSyncTimestamp : Nat
  updateExistingFiles : Bool
  excludeArchived : Bool
  onlyFavorites : Bool
  syncNotesToHoarder : Bool
  excludedTags : List String
  importContent : Bool

/-- Tag origin enum of the remote data model (main.ts line 11). -/
inductive AttachedBy
  | ai
  | human
deriving DecidableEq

/-- Remote tag record (main.ts lines 8-12). -/
structure HoarderTag where
  id : String
  name : String
  attachedBy : AttachedBy
deriving DecidableEq

/-- Content kind tag (main.ts line 15). -/
inductive ContentType
  | link
  | text
  | asset
  | unknown
deriving DecidableEq

/-- Asset kind (main.ts line 29). -/
inductive AssetType
  | image
  | pdf
deriving DecidableEq

/-- Tagging status enum (main.ts line 40). -/
inductive TaggingStatus
  | success
  | failure
  | pending
deriving DecidableEq

/-- Polymorphic content payload of a bookmark (main.ts lines 14-32); optional
JS fields become `Option`s. -/
structure HoarderBookmarkContent where
  type : ContentType
  url : Option String := none
  title : Option String := none
  description : Option String := none
  imageUrl : Option String := none
  imageAssetId : Option String := none
  screenshotAssetId : Option String := none
  fullPageArchiveAssetId : Option String := none
  videoAssetId : Option String := none
  favicon : Option String := none
  htmlContent : Option String := none
  crawledAt : Option String := none
  text : Option String := none
  sourceUrl : Option String := none
  assetType : Option AssetType := none
  assetId : Option String := none
  fileName : Option String := none
deriving DecidableEq

/-- Remote bookmark record (main.ts lines 34-45). -/
structure HoarderBookmark where
  id : String
  createdAt : String
  title : Option String
  archived : Bool
  favourited : Bool
  taggingStatus : Option TaggingStatus
  note : Option String
  summary : Option String
  tags : List HoarderTag
  content : HoarderBookmarkContent
deriving DecidableEq

/-- One page of the list endpoint (main.ts lines 47-51). -/
structure HoarderResponse where
  bookmarks : List HoarderBookmark
  total : Nat
  hasMore : Bool
deriving DecidableEq

/-- Truthiness of a JS `string | null` value: present and non-empty. -/
def strTruthy : Option String → Bool
  | some s => s ≠ ""
  | none => false

/-! ### Title resolver (`getBookmarkTitle`) -/

/-- Splitting on a single character, the model of JS `split` with a
one-character separator: always returns at least one (possibly empty)
segment. -/
def splitOnCharL (c : Char) : List Char → List (List Char)
  | [] => [[]]
  | a :: as =>
    match splitOnCharL c as with
    | [] => [[]]
    | s :: ss => if a = c then [] :: s :: ss else (a :: s) :: ss

/-- Last segment of a split, the model of JS `pop()` on the non-empty array a
JS `split` returns. -/
def lastSeg (ls : List (List Char)) : List Char := (ls.getLast?).getD []

/-- Strip one trailing dot-extension, the JS replace of a dot followed by one
or more characters other than slash or dot, anchored at the end
(main.ts lines 195 and 218). -/
def stripExtL (l : List Char) : List Char :=
  let extRev := l.reverse.takeWhile (fun c => c != '.' && c != '/')
  let rest := l.reverse.drop extRev.length
  match rest with
  | '.' :: rest' => if extRev = [] then l else rest'.reverse
  | _ => l

/-- Strip a leading `www.` from a hostname (main.ts line 201). -/
def stripWww (s : String) : String :=
  if ("www.".data).isPrefixOf s.data then ⟨s.data.drop 4⟩ else s

/-- Replace dashes and underscores by spaces (main.ts line 196). -/
def dashUnderscoreToSpace (l : List Char) : List Char :=
  l.map fun c => if c = '-' || c = '_' then ' ' else c

/-- First line of a text, the model of JS `split("\n")[0]`. -/
def firstLineL (l : List Char) : List Char := l.takeWhile (fun c => c != '\n')

/-- Title derived from a link url (main.ts lines 189-204): the last path
segment without extension, dashes and underscores as spaces; else the
hostname without `www.`; the raw url when the parse fails. -/
def linkUrlTitle (parse : String → Option UrlParts) (u : String) : String :=
  match parse u with
  | none => u
  | some parts =>
    let pathTitle : List Char :=
      dashUnderscoreToSpace (stripExtL (lastSeg (splitOnCharL '/' parts.pathname.data)))
    if pathTitle ≠ [] then ⟨pathTitle⟩
    else stripWww parts.hostname

/-- Title derived from an asset source url (main.ts lines 221-226): the last
path segment, else the hostname, else the raw url when the parse fails. -/
def assetSourceTitle (parse : String → Option UrlParts) (u : String) : String :=
  match parse u with
  | none => u
  | some parts =>
    let seg := lastSeg (splitOnCharL '/' parts.pathname.data)
    if seg ≠ [] then ⟨seg⟩ else parts.hostname

/-- Fallback title (main.ts lines 231-233). -/
def fallbackTitle (b : HoarderBookmark) : String :=
  "Bookmark-" ++ b.id ++ "-" ++ ⟨dateStemL b.createdAt.data⟩

/-- Content-level half of the title cascade (main.ts lines 182-233), reached
when the record-level title is absent or empty. -/
def contentTitle (parse : String → Option UrlParts) (b : HoarderBookmark) :
    String :=
  match b.content.type with
  | ContentType.link =>
    if strTruthy b.content.title then b.content.title.getD ""
    else if strTruthy b.content.url then linkUrlTitle parse (b.content.url.getD "")
    else fallbackTitle b
  | ContentType.text =>
    if strTruthy b.content.text then
      let firstLine := firstLineL (b.content.text.getD "").data
      if firstLine.length ≤ 100 then ⟨firstLine⟩
      else ⟨firstLine.take 97⟩ ++ "..."
    else fallbackTitle b
  | ContentType.asset =>
    if strTruthy b.content.fileName then ⟨stripExtL (b.content.fileName.getD "").data⟩
    else if strTruthy b.content.sourceUrl then
      assetSourceTitle parse (b.content.sourceUrl.getD "")
    else fallbackTitle b
  | ContentType.unknown => fallbackTitle b

/-- Embedding of `getBookmarkTitle` (main.ts lines 176-234), with the host URL
parser supplied as an oracle `parse`: the record-level title when truthy, the
content-level cascade otherwise. -/
def getBookmarkTitle (parse : String → Option UrlParts) (b : HoarderBookmark) :
    String :=
  if strTruthy b.title then b.title.getD "" else contentTitle parse b

/-! ### Asset fetcher (`downloadImage`) path and credential logic -/

/-- Dash-joining of segments, the model of JS `join("-")`. -/
def joinDash (ls : List (List Char)) : List Char := List.intercalate ['-'] ls

/-- Extension computation of `downloadImage` (main.ts lines 485-490): last
dot-separated segment of the url lower-cased, `jpg` when empty, constrained
to the allowlist of jpg, jpeg, png, gif and webp. -/
def imageExtension (url : String) : String :=
  let e : String := ⟨(lastSeg (splitOnCharL '.' url.data)).map Char.toLower⟩
  let ext := if e = "" then "jpg" else e
  if ext = "jpg" ∨ ext = "jpeg" ∨ ext = "png" ∨ ext = "gif" ∨ ext = "webp" then ext
  else "jpg"

/-- Attachment-name title of `downloadImage` (main.ts lines 493-496): the
sanitised filename for the current instant, split on dashes, with the first
segment dropped, re-joined with dashes. -/
def imageSafeTitle (title now : String) : String :=
  ⟨joinDash ((splitOnCharL '-' (sanitizeFileName title now).data).drop 1)⟩

/-- Target path computed by `downloadImage` (main.ts lines 497-498); `now` is
the current instant used by line 493. -/
def downloadImagePath (settings : HoarderSettings) (now url assetId title : String) :
    String :=
  settings.attachmentsFolder ++ "/" ++ assetId ++ "-" ++ imageSafeTitle title now ++
    "." ++ imageExtension url

/-- Path formula asserted by the specification for the asset fetcher: asset id
followed by the sanitised title with the whole leading date removed. -/
def specAssetPath (settings : HoarderSettings) (now url assetId title : String) :
    String :=
  settings.attachmentsFolder ++ "/" ++ assetId ++ "-" ++
    stemTitlePortion (sanitizeFileName title now) ++ "." ++ imageExtension url

/-- Credential decision of `downloadImage` (main.ts lines 506-511): the bearer
header is attached iff the url string starts with the origin of the
configured API base URL. -/
def attachAuthHeader (settings : HoarderSettings) (url : String) : Bool :=
  (jsUrlOrigin settings.apiBaseUrl).data.isPrefixOf url.data

/-- Sample plugin configuration used for concrete evaluations. -/
def sampleSettings : HoarderSettings where
  apiKey := "secret-key"
  apiBaseUrl := "https://api.hoarder.app"
  apiPath := "/api/v1"
  syncFolder := "Hoarder"
  attachmentsFolder := "Hoarder/attachments"
  syncIntervalMinutes := 60
  lastSyncTimestamp := 0
  updateExistingFiles := false
  excludeArchived := true
  onlyFavorites := false
  syncNotesToHoarder := true
  excludedTags := []
  importContent := false

/-! ### Notes extraction (`extractNotesFromFile`) -/

/-- External inputs of one `extractNotesFromFile` call: whether the path
resolves to a file, the outcome of the vault read, and the frontmatter held
by the metadata cache for the file. -/
structure FileEnv where
  isFile : Bool
  readResult : Except String String
  frontmatter : Option (List (String × String))

/-- Remainder of the text after the first occurrence of `needle`, or `none`
when it does not occur; the searching half of the Notes regex. -/
def findSubAfter (needle : List Char) : List Char → Option (List Char)
  | [] => if needle.isPrefixOf ([] : List Char) then some [] else none
  | c :: cs =>
    if needle.isPrefixOf (c :: cs) then some ((c :: cs).drop needle.length)
    else findSubAfter needle cs

/-- Lazy capture of the Notes regex (main.ts line 248): the shortest text after
the marker such that the remainder starts with newline-hash-hash or
newline-bracket, or else the whole remainder. -/
def lazyCaptureNotes : List Char → List Char
  | [] => []
  | c :: cs =>
    if ("\n##".data.isPrefixOf (c :: cs)) || ("\n[".data.isPrefixOf (c :: cs)) then []
    else c :: lazyCaptureNotes cs

/-- JS-style trim of surrounding whitespace. -/
def trimL (l : List Char) : List Char :=
  ((l.dropWhile isJsWs).reverse.dropWhile isJsWs).reverse

/-- Notes-section extraction of `extractNotesFromFile` (main.ts lines 248-249):
the trimmed first capture of the Notes regex, or `none` when the marker does
not occur in the content. -/
def extractNotesSection (content : String) : Option String :=
  match findSubAfter ("## Notes\n\n").data content.data with
  | none => none
  | some rest => some ⟨trimL (lazyCaptureNotes rest)⟩

/-- Embedding of `extractNotesFromFile` (main.ts lines 236-260): a path that is
no file, or a failing read, yields two `none`s through the catch-all; a
missing Notes section or a missing `original_note` frontmatter key yields
`none` in the corresponding field. -/
def extractNotesFromFile (env : FileEnv) : Option String × Option String :=
  if env.isFile = false then (none, none)
  else
    match env.readResult with
    | Except.error _ => (none, none)
    | Except.ok content =>
      let currentNotes := extractNotesSection content
      let originalNotes :=
        match env.frontmatter with
        | none => none
        | some fm => fm.lookup "original_note"
      (currentNotes, originalNotes)

/-! ### Effects and the asset fetcher -/

/-- Observable file and network operations of a sync pass. -/
inductive Effect
  | fsExists (path : String)
  | fsCreateFolder (path : String)
  | fsRead (path : String)
  | fsWrite (path : String)
  | fsCreate (path : String)
  | fsWriteBinary (path : String)
  | netFetchPage (page : Nat)
  | netPush (bookmarkId : String) (note : String)
  | netFetchAsset (url : String) (withAuth : Bool)
  | saveSettings
deriving DecidableEq

/-- External inputs of one `downloadImage` call: the attachments-folder check,
the per-path existence check, the fetch outcome, and the current instant used
for the attachment name. -/
structure AssetFetchEnv where
  attachmentsFolderExists : Bool
  fileExists : String → Bool
  fetchOk : String → Bool
  nowIso : String

/-- Embedding of `downloadImage` (main.ts lines 471-525): ensure the
attachments folder, compute the target path, return it without fetching when
the file exists, otherwise fetch (with the bearer header iff
`attachAuthHeader`) and write the bytes; a failing fetch yields `none`. -/
def downloadImage (settings : HoarderSettings) (env : AssetFetchEnv)
    (url assetId title : String) : Option String × List Effect :=
  let folderEffs : List Effect :=
    Effect.fsExists settings.attachmentsFolder ::
      (if env.attachmentsFolderExists then [] else
        [Effect.fsCreateFolder settings.attachmentsFolder])
  let filePath := downloadImagePath settings env.nowIso url assetId title
  let existsEffs := folderEffs ++ [Effect.fsExists filePath]
  if env.fileExists filePath then (some filePath, existsEffs)
  else
    let fetchEff := Effect.netFetchAsset url (attachAuthHeader settings url)
    if env.fetchOk url then
      (some filePath, existsEffs ++ [fetchEff, Effect.fsWriteBinary filePath])
    else (none, existsEffs ++ [fetchEff])

/-! ### Document renderer (`formatBookmarkAsMarkdown`) -/

/-- Characters forcing the block-scalar form in `escapeYaml`
(main.ts line 551). -/
def isYamlSpecial (c : Char) : Bool :=
  c == ':' || c == '#' || c == '\x7b' || c == '\x7d' || c == '[' || c == ']' ||
  c == ',' || c == '&' || c == '*' || c == '?' || c == '|' || c == '<' ||
  c == '>' || c == '=' || c == '!' || c == '%' || c == '@' || c == '\x60'

/-- Indentation of continuation lines in a block scalar: each newline is
followed by two spaces (main.ts line 552). -/
def indentNewlines : List Char → List Char
  | [] => []
  | c :: cs =>
    if c = '\n' then '\n' :: ' ' :: ' ' :: indentNewlines cs
    else c :: indentNewlines cs

/-- Backslash-escaping of double quotes (main.ts line 559). -/
def escapeQuotes : List Char → List Char
  | [] => []
  | c :: cs =>
    if c = '"' then '\\' :: '"' :: escapeQuotes cs
    else c :: escapeQuotes cs

/-- Leading or trailing space or tab test (main.ts line 558). -/
def leadTrailSpaceTab (l : List Char) : Bool :=
  (match l.head? with
   | some c => c == ' ' || c == '\t'
   | none => false) ||
  (match l.getLast? with
   | some c => c == ' ' || c == '\t'
   | none => false)

/-- YAML escaping helper of the renderer (main.ts lines 548-562). -/
def escapeYaml (o : Option String) : String :=
  match o with
  | none => ""
  | some str =>
    if str = "" then ""
    else if str.data.contains '\n' || str.data.any isYamlSpecial then
      "|\n  " ++ ⟨indentNewlines str.data⟩
    else if str.data.contains '"' then "'" ++ str ++ "'"
    else if str.data.contains '\'' || leadTrailSpaceTab str.data then
      "\"" ++ ⟨escapeQuotes str.data⟩ ++ "\""
    else str

/-- Tag escaping helper of the renderer (main.ts lines 565-571): every tag is
quoted. -/
def escapeTag (tag : String) : String :=
  if tag.data.contains '"' then "'" ++ tag ++ "'"
  else "\"" ++ tag ++ "\""

/-- Model of `new Date(s).toISOString()` restricted to the normalised UTC
ISO-8601 timestamps this system round-trips, on which it is the identity. -/
def toISOString (s : String) : String := s

/-- Separator join, the model of JS `Array.prototype.join`. -/
def joinStrSep (sep : String) : List String → String
  | [] => ""
  | [s] => s
  | s :: rest => s ++ sep ++ joinStrSep sep rest

/-- External collaborators of the renderer: the asset fetcher environment and
the readability-plus-turndown HTML conversion (main.ts lines 647-665),
returning the markdown of the parsed article or nothing. -/
structure RenderEnv where
  asset : AssetFetchEnv
  htmlConvert : String → Option String

/-- Frontmatter lines preceding the tags key (main.ts lines 578-583). -/
def frontmatterPrefix (settings : HoarderSettings) (b : HoarderBookmark)
    (title : String) : String :=
  let url :=
    if b.content.type = ContentType.link then b.content.url else b.content.sourceUrl
  let fullPageArchiveAsset :=
    if strTruthy b.content.fullPageArchiveAssetId then
      settings.apiBaseUrl ++ "/api/assets/" ++ b.content.fullPageArchiveAssetId.getD ""
    else ""
  "---\nbookmark_id: \"" ++ b.id ++ "\"\nurl: " ++ escapeYaml url ++
    "\ntitle: " ++ escapeYaml (some title) ++
    "\ndate: " ++ toISOString b.createdAt ++
    "\nfull_page_archive: " ++ escapeYaml (some fullPageArchiveAsset)

/-- Frontmatter lines following the note key (main.ts lines 586-592). -/
def frontmatterSuffix (b : HoarderBookmark) (title : String) : String :=
  escapeYaml b.note ++
    "\noriginal_note: " ++ escapeYaml b.note ++
    "\nsummary: " ++ escapeYaml b.summary ++
    "\n---\n\n# " ++ title ++ "\n"

/-- Frontmatter block of the rendered document (main.ts lines 578-592): the
escaped tag names are joined into the pre-written list-item template between
the tags key and the note key. -/
def bookmarkFrontmatter (settings : HoarderSettings) (b : HoarderBookmark)
    (title : String) : String :=
  frontmatterPrefix settings b title ++ "\ntags:\n  - " ++
    joinStrSep "\n  - " ((b.tags.map fun t => t.name).map escapeTag) ++
    "\nnote: " ++ frontmatterSuffix b title

/-- Image-embedding step of the renderer (main.ts lines 594-632): asset-kind
image records download their own asset, link-kind records download only a
remote-hosted image asset id, external image urls are embedded directly. -/
def bookmarkImagePart (settings : HoarderSettings) (env : RenderEnv)
    (b : HoarderBookmark) (title : String) : String × List Effect :=
  if b.content.type = ContentType.asset ∧ b.content.assetType = some AssetType.image then
      if strTruthy b.content.assetId then
        let aid := b.content.assetId.getD ""
        let assetUrl := settings.apiBaseUrl ++ "/api/assets/" ++ aid
        let dl := downloadImage settings env.asset assetUrl aid title
        match dl.1 with
        | some p => ("\n![" ++ title ++ "](" ++ p ++ ")\n", dl.2)
        | none => ("", dl.2)
      else if strTruthy b.content.sourceUrl then
        ("\n![" ++ title ++ "](" ++ b.content.sourceUrl.getD "" ++ ")\n", [])
      else ("", [])
    else if b.content.type = ContentType.link then
      if strTruthy b.content.imageAssetId then
        let aid := b.content.imageAssetId.getD ""
        let assetUrl := settings.apiBaseUrl ++ "/api/assets/" ++ aid
        let dl := downloadImage settings env.asset assetUrl aid title
        match dl.1 with
        | some p => ("\n![" ++ title ++ "](" ++ p ++ ")\n", dl.2)
        | none => ("", dl.2)
      else if strTruthy b.content.imageUrl then
        ("\n![" ++ title ++ "](" ++ b.content.imageUrl.getD "" ++ ")\n", [])
      else ("", [])
    else ("", [])

/-- Body of the rendered document after the frontmatter (main.ts lines
594-677): optional image embed, Summary, Description, Content and Notes
sections and the visit link, together with the asset-fetch effects. -/
def bookmarkBody (settings : HoarderSettings) (env : RenderEnv)
    (b : HoarderBookmark) (title : String) : String × List Effect :=
  let url :=
    if b.content.type = ContentType.link then b.content.url else b.content.sourceUrl
  let description :=
    if b.content.type = ContentType.link then b.content.description else b.content.text
  let imagePart : String × List Effect := bookmarkImagePart settings env b title
  let summaryPart :=
    if strTruthy b.summary then "\n## Summary\n\n" ++ b.summary.getD "" ++ "\n" else ""
  let descriptionPart :=
    if strTruthy description then
      "\n## Description\n\n" ++ description.getD "" ++ "\n"
    else ""
  let contentPart :=
    if settings.importContent ∧ b.content.type = ContentType.link ∧
        strTruthy b.content.htmlContent then
      "\n## Content\n\n" ++
        (match env.htmlConvert (b.content.htmlContent.getD "") with
         | some md => md ++ "\n"
         | none => "")
    else ""
  let notesPart := "\n## Notes\n\n" ++ b.note.getD "" ++ "\n"
  let linkPart :=
    if strTruthy url ∧ b.content.type ≠ ContentType.asset then
      "\n[Visit Link](" ++ url.getD "" ++ ")\n"
    else ""
  (imagePart.1 ++ summaryPart ++ descriptionPart ++ contentPart ++ notesPart ++
    linkPart, imagePart.2)

/-- Embedding of `formatBookmarkAsMarkdown` (main.ts lines 527-678), returning
the document text and the asset-fetch effects it performed. -/
def formatBookmarkAsMarkdown (settings : HoarderSettings) (env : RenderEnv)
    (b : HoarderBookmark) (title : String) : String × List Effect :=
  (bookmarkFrontmatter settings b title ++ (bookmarkBody settings env b title).1,
    (bookmarkBody settings env b title).2)

/-! ### Sync engine (`syncBookmarks`) -/

/-- Outcome of the note-reconciliation step for one existing document. -/
structure NoteSyncResult where
  pushed : Bool
  note : Option String
  updatedDelta : Nat
  effects : List Effect

/-- Embedding of the note-reconciliation step for an existing file under
bidirectional sync (main.ts lines 354-374): `remoteNotes` reads the record's
note as a string with null as empty (line 356); the push happens iff the
current and original notes are both present, the current note differs from
the original marker and from the remote note; a successful push replaces the
in-memory note and advances the updated counter, anything else leaves both
unchanged. -/
def syncNotesStep (bookmarkId : String) (bNote : Option String)
    (cur orig : Option String) (pushOk : Bool) : NoteSyncResult :=
  let remoteNotes := bNote.getD ""
  match cur, orig with
  | some c, some o =>
    if c ≠ o ∧ c ≠ remoteNotes then
      if pushOk then
        { pushed := true, note := some c, updatedDelta := 1,
          effects := [Effect.netPush bookmarkId c] }
      else
        { pushed := true, note := bNote, updatedDelta := 0,
          effects := [Effect.netPush bookmarkId c] }
    else { pushed := false, note := bNote, updatedDelta := 0, effects := [] }
  | _, _ => { pushed := false, note := bNote, updatedDelta := 0, effects := [] }

/-- Per-pass counters of the engine (main.ts lines 307-310). -/
structure Counters where
  totalBookmarks : Nat
  skippedFiles : Nat
  updatedInHoarder : Nat
  excludedByTags : Nat
deriving DecidableEq

/-- External inputs of one sync pass: the clock, the URL parser, the initial
filesystem, the successive list-endpoint responses (an error entry models a
rejected fetch, and the list running out models a fetch that never resolves a
page, also surfaced as a rejection), the per-file read environment, the
outcome of each note push, and the renderer collaborators. -/
structure SyncEnv where
  now : Nat
  parseUrl : String → Option UrlParts
  folderExists : Bool
  pages : List (Except String HoarderResponse)
  fileExists : String → Bool
  fileEnv : String → FileEnv
  pushOk : String → String → Bool
  asset : AssetFetchEnv
  htmlConvert : String → Option String

/-- Renderer view of the pass environment. -/
def renderEnvOf (env : SyncEnv) : RenderEnv :=
  { asset := env.asset, htmlConvert := env.htmlConvert }

/-- Lower-casing of a string, the model of JS `toLowerCase`. -/
def toLowerStr (s : String) : String := ⟨s.data.map Char.toLower⟩

/-- Tag-exclusion test of the engine (main.ts lines 330-341): not favourited,
a non-empty excluded list, and a case-insensitive intersection between the
record's tag names and the excluded entries. -/
def bookmarkExcluded (settings : HoarderSettings) (b : HoarderBookmark) : Bool :=
  !b.favourited && decide (0 < settings.excludedTags.length) &&
    (settings.excludedTags.any fun ex =>
      (b.tags.map fun t => toLowerStr t.name).contains (toLowerStr ex))

/-- Path of the rendered document for one bookmark (main.ts lines 343-347). -/
def bookmarkFileName (settings : HoarderSettings) (env : SyncEnv)
    (b : HoarderBookmark) : String :=
  settings.syncFolder ++ "/" ++
    sanitizeFileName (getBookmarkTitle env.parseUrl b) b.createdAt ++ ".md"

/-- Outcome of processing a single bookmark: the files created so far, the
record's in-memory note after the step, the counter deltas, and the effects
performed. -/
structure ProcOut where
  created : List String
  note : Option String
  dTotal : Nat
  dSkipped : Nat
  dUpdated : Nat
  dExcluded : Nat
  effects : List Effect

/-- Per-bookmark step of the sync loop (main.ts lines 328-394). -/
def processBookmark (settings : HoarderSettings) (env : SyncEnv)
    (created : List String) (b : HoarderBookmark) : ProcOut :=
  if bookmarkExcluded settings b then
    { created := created, note := b.note, dTotal := 0, dSkipped := 0,
      dUpdated := 0, dExcluded := 1, effects := [] }
  else
    let title := getBookmarkTitle env.parseUrl b
    let fileName := bookmarkFileName settings env b
    let fileIsThere := env.fileExists fileName || created.contains fileName
    let existsEff : List Effect := [Effect.fsExists fileName]
    if fileIsThere then
      let step : NoteSyncResult × List Effect :=
        if settings.syncNotesToHoarder then
          let ex := extractNotesFromFile (env.fileEnv fileName)
          let r := syncNotesStep b.id b.note ex.1 ex.2 (env.pushOk b.id (ex.1.getD ""))
          (r, Effect.fsRead fileName :: r.effects)
        else
          ({ pushed := false, note := b.note, updatedDelta := 0, effects := [] }, [])
      let b' := { b with note := step.1.note }
      if settings.updateExistingFiles then
        let render := formatBookmarkAsMarkdown settings (renderEnvOf env) b' title
        { created := created, note := step.1.note, dTotal := 1, dSkipped := 0,
          dUpdated := step.1.updatedDelta, dExcluded := 0,
          effects := existsEff ++ step.2 ++ render.2 ++ [Effect.fsWrite fileName] }
      else
        { created := created, note := step.1.note, dTotal := 0, dSkipped := 1,
          dUpdated := step.1.updatedDelta, dExcluded := 0,
          effects := existsEff ++ step.2 }
    else
      let render := formatBookmarkAsMarkdown settings (renderEnvOf env) b title
      { created := fileName :: created, note := b.note, dTotal := 1, dSkipped := 0,
        dUpdated := 0, dExcluded := 0,
        effects := existsEff ++ render.2 ++ [Effect.fsCreate fileName] }

/-- Sequential processing of one page's records (main.ts line 328). -/
def processPage (settings : HoarderSettings) (env : SyncEnv) :
    List HoarderBookmark → List String → Counters → List Effect →
      List String × Counters × List Effect
  | [], created, cnt, effs => (created, cnt, effs)
  | b :: rest, created, cnt, effs =>
    let p := processBookmark settings env created b
    processPage settings env rest p.created
      { totalBookmarks := cnt.totalBookmarks + p.dTotal,
        skippedFiles := cnt.skippedFiles + p.dSkipped,
        updatedInHoarder := cnt.updatedInHoarder + p.dUpdated,
        excludedByTags := cnt.excludedByTags + p.dExcluded }
      (effs ++ p.effects)

/-- Pagination loop (main.ts lines 319-398): fetch and process pages until
`hasMore` is false; a rejected fetch aborts the pass with its message. -/
def runPages (settings : HoarderSettings) (env : SyncEnv) :
    List (Except String HoarderResponse) → Nat → List String → Counters →
      List Effect → Except (String × List Effect) (Counters × List Effect)
  | [], page, _, _, effs =>
    Except.error ("Failed to fetch", effs ++ [Effect.netFetchPage page])
  | Except.error e :: _, page, _, _, effs =>
    Except.error (e, effs ++ [Effect.netFetchPage page])
  | Except.ok resp :: rest, page, created, cnt, effs =>
    let out := processPage settings env resp.bookmarks created cnt
      (effs ++ [Effect.netFetchPage page])
    if resp.hasMore then runPages settings env rest (page + 1) out.1 out.2.1 out.2.2
    else Except.ok (out.2.1, out.2.2)

/-- Result record of `syncBookmarks` (main.ts line 297). -/
structure SyncResult where
  success : Bool
  message : String
deriving DecidableEq

/-- Engine state relevant to the state machine: the re-entrancy flag, the
skipped-file counter field, and the settings. -/
structure SyncState where
  isSyncing : Bool
  skippedFiles : Nat
  settings : HoarderSettings

/-- Plural suffix of the summary message (main.ts lines 404-421). -/
def plural (n : Nat) : String := if n = 1 then "" else "s"

/-- Summary message of a successful pass (main.ts lines 404-421). -/
def successMessage (c : Counters) : String :=
  "Successfully synced " ++ toString c.totalBookmarks ++ " bookmark" ++
    plural c.totalBookmarks ++
  (if 0 < c.skippedFiles then
    " (skipped " ++ toString c.skippedFiles ++ " existing file" ++
      plural c.skippedFiles ++ ")"
   else "") ++
  (if 0 < c.updatedInHoarder then
    " and updated " ++ toString c.updatedInHoarder ++ " note" ++
      plural c.updatedInHoarder ++ " in Hoarder"
   else "") ++
  (if 0 < c.excludedByTags then
    ", excluded " ++ toString c.excludedByTags ++ " bookmark" ++
      plural c.excludedByTags ++ " by tags"
   else "")

/-- Embedding of `syncBookmarks` (main.ts lines 297-437): reject re-entrant
calls, reject a missing API key, otherwise run the pass; the returned state
always has the re-entrancy flag cleared and the skipped counter reset (the
`finally`), a caught pass error producing the failure message. -/
def syncBookmarks (st : SyncState) (env : SyncEnv) :
    SyncState × SyncResult × List Effect :=
  if st.isSyncing then
    (st, { success := false, message := "Sync already in progress" }, [])
  else if st.settings.apiKey = "" then
    (st, { success := false, message := "Hoarder API key not configured" }, [])
  else
    let folderEffs : List Effect :=
      Effect.fsExists st.settings.syncFolder ::
        (if env.folderExists then []
         else [Effect.fsCreateFolder st.settings.syncFolder])
    match runPages st.settings env env.pages 1 []
        { totalBookmarks := 0, skippedFiles := 0, updatedInHoarder := 0,
          excludedByTags := 0 } folderEffs with
    | Except.ok (cnt, effs) =>
      ({ isSyncing := false, skippedFiles := 0,
         settings := { st.settings with lastSyncTimestamp := env.now } },
       { success := true, message := successMessage cnt },
       effs ++ [Effect.saveSettings])
    | Except.error (msg, effs) =>
      ({ isSyncing := false, skippedFiles := 0, settings := st.settings },
       { success := false, message := "Error syncing: " ++ msg }, effs)

/-- Sample pass environment used for concrete evaluations. -/
def sampleSyncEnv : SyncEnv where
  now := 1700000000
  parseUrl := fun _ => none
  folderExists := true
  pages := []
  fileExists := fun _ => false
  fileEnv := fun _ =>
    { isFile := false, readResult := Except.error "no file", frontmatter := none }
  pushOk := fun _ _ => true
  asset :=
    { attachmentsFolderExists := true, fileExists := fun _ => false,
      fetchOk := fun _ => true, nowIso := "2024-01-05T10:00:00.000Z" }
  htmlConvert := fun _ => none

/-- Pass environment in which the bookmark's document exists and holds the
notes section "B" over an original-note marker "A". -/
def sampleNoteEnv : SyncEnv where
  now := 1700000000
  parseUrl := fun _ => none
  folderExists := true
  pages := []
  fileExists := fun _ => true
  fileEnv := fun _ =>
    { isFile := true, readResult := Except.ok "## Notes\n\nB",
      frontmatter := some [("original_note", "A")] }
  pushOk := fun _ _ => true
  asset :=
    { attachmentsFolderExists := true, fileExists := fun _ => false,
      fetchOk := fun _ => true, nowIso := "2024-01-05T10:00:00.000Z" }
  htmlConvert := fun _ => none

theorem collapseAux_nil {p : Char → Bool} {r : Char} {b : Bool} :
    collapseAux p r b [] = [] := rfl

theorem collapseAux_cons_pos {p : Char → Bool} {r c : Char} {b : Bool}
    {cs : List Char} (h : p c = true) :
    collapseAux p r b (c :: cs) =
      if b then collapseAux p r true cs else r :: collapseAux p r true cs := by
  cases b <;> simp [collapseAux, h]

theorem collapseAux_cons_neg {p : Char → Bool} {r c : Char} {b : Bool}
    {cs : List Char} (h : p c = false) :
    collapseAux p r b (c :: cs) = c :: collapseAux p r false cs := by
  cases b <;> simp [collapseAux, h]

theorem mem_collapseAux {p : Char → Bool} {r : Char} :
    ∀ {b : Bool} {l : List Char} {c : Char}, c ∈ collapseAux p r b l →
      c = r ∨ (c ∈ l ∧ p c = false) := by
  intro b l
  induction l generalizing b with
  | nil => intro c hc; simp [collapseAux_nil] at hc
  | cons a as ih =>
    intro c hc
    by_cases hp : p a
    · rw [collapseAux_cons_pos hp] at hc
      cases b with
      | true =>
        simp only [if_true] at hc
        rcases ih hc with h | ⟨h1, h2⟩
        · exact Or.inl h
        · exact Or.inr ⟨List.mem_cons_of_mem _ h1, h2⟩
      | false =>
        simp only [Bool.false_eq_true, if_false] at hc
        rcases List.mem_cons.mp hc with h | h
        · exact Or.inl h
        · rcases ih h with h' | ⟨h1, h2⟩
          · exact Or.inl h'
          · exact Or.inr ⟨List.mem_cons_of_mem _ h1, h2⟩
    · rw [collapseAux_cons_neg (by simpa using hp)] at hc
      rcases List.mem_cons.mp hc with h | h
      · subst h
        exact Or.inr ⟨List.mem_cons_self _ _, by simpa using hp⟩
      · rcases ih h with h' | ⟨h1, h2⟩
        · exact Or.inl h'
        · exact Or.inr ⟨List.mem_cons_of_mem _ h1, h2⟩

theorem collapseAux_id_of_not {p : Char → Bool} {r : Char} :
    ∀ {l : List Char}, (∀ c ∈ l, p c = false) → ∀ b, collapseAux p r b l = l := by
  intro l
  induction l with
  | nil => intro _ b; rfl
  | cons a as ih =>
    intro h b
    have ha : p a = false := h a (List.mem_cons_self _ _)
    rw [collapseAux_cons_neg ha]
    rw [ih (fun c hc => h c (List.mem_cons_of_mem _ hc)) false]

theorem dashCollapse_chain :
    ∀ (l : List Char) (b : Bool),
      NoDoubleDash (collapseAux (fun c => c == '-') '-' b l) ∧
      (b = true → ∀ d, (collapseAux (fun c => c == '-') '-' b l).head? = some d →
        d ≠ '-') := by
  intro l
  induction l with
  | nil =>
    intro b
    exact ⟨List.chain'_nil, by intro _ d hd; simp [collapseAux_nil] at hd⟩
  | cons a as ih =>
    intro b
    by_cases hp : a = '-'
    · have hpb : ((fun c => c == '-') a) = true := by simpa using hp
      rw [@collapseAux_cons_pos (fun c => c == '-') '-' a b as hpb]
      cases b with
      | true =>
        simp only [if_true]
        exact ⟨(ih true).1, fun _ => (ih true).2 rfl⟩
      | false =>
        simp only [Bool.false_eq_true, if_false]
        constructor
        · rw [NoDoubleDash, List.chain'_cons']
          refine ⟨?_, (ih true).1⟩
          intro y hy
          have := (ih true).2 rfl y (by simpa using hy)
          tauto
        · intro h; cases h
    · have hpb : ((fun c => c == '-') a) = false := by simpa using hp
      rw [@collapseAux_cons_neg (fun c => c == '-') '-' a b as hpb]
      constructor
      · rw [NoDoubleDash, List.chain'_cons']
        exact ⟨fun y _ => by tauto, (ih false).1⟩
      · intro _ d hd
        simp only [List.head?_cons, Option.some.injEq] at hd
        subst hd; exact hp

theorem dashCollapse_id :
    ∀ (l : List Char) (b : Bool), NoDoubleDash l →
      (b = true → ∀ d, l.head? = some d → d ≠ '-') →
      collapseAux (fun c => c == '-') '-' b l = l := by
  intro l
  induction l with
  | nil => intro b _ _; rfl
  | cons a as ih =>
    intro b hch hb
    by_cases hp : a = '-'
    · cases b with
      | true => exact absurd hp (hb rfl a (by simp))
      | false =>
        have hpb : ((fun c => c == '-') a) = true := by simpa using hp
        rw [@collapseAux_cons_pos (fun c => c == '-') '-' a false as hpb]
        simp only [Bool.false_eq_true, if_false]
        subst hp
        rw [ih true (List.Chain'.tail hch) ?_]
        intro _ d hd
        have := (List.chain'_cons'.mp hch).1 d hd
        tauto
    · have hpb : ((fun c => c == '-') a) = false := by simpa using hp
      rw [@collapseAux_cons_neg (fun c => c == '-') '-' a b as hpb]
      rw [ih false (List.Chain'.tail hch) (by intro h; cases h)]

theorem noDoubleDash_reverse {l : List Char} (h : NoDoubleDash l) :
    NoDoubleDash l.reverse := by
  rw [NoDoubleDash, List.chain'_reverse]
  exact h.imp (by intro a b; unfold flip; tauto)

theorem head_dropLeadDash {l : List Char} (h : NoDoubleDash l) :
    ∀ d, (dropLeadDash l).head? = some d → d ≠ '-' := by
  intro d hd
  cases l with
  | nil => simp [dropLeadDash] at hd
  | cons a as =>
    by_cases ha : a = '-'
    · simp only [dropLeadDash, ha, if_true] at hd
      subst ha
      have := (List.chain'_cons'.mp h).1 d hd
      tauto
    · simp only [dropLeadDash, ha, if_false, List.head?_cons, Option.some.injEq] at hd
      subst hd; exact ha

theorem chain_dropLeadDash {l : List Char} (h : NoDoubleDash l) :
    NoDoubleDash (dropLeadDash l) := by
  cases l with
  | nil => exact h
  | cons a as =>
    by_cases ha : a = '-'
    · simpa only [dropLeadDash, ha, if_true] using List.Chain'.tail h
    · simpa only [dropLeadDash, ha, if_false] using h

theorem subset_dropLeadDash {l : List Char} : dropLeadDash l ⊆ l := by
  cases l with
  | nil => simp [dropLeadDash]
  | cons a as =>
    by_cases ha : a = '-'
    · simp only [dropLeadDash, ha, if_true]
      exact List.subset_cons_self _ _
    · simp [dropLeadDash, ha]

theorem dropLeadDash_id {l : List Char}
    (h : ∀ d, l.head? = some d → d ≠ '-') : dropLeadDash l = l := by
  cases l with
  | nil => rfl
  | cons a as =>
    have := h a (by simp)
    simp [dropLeadDash, this]

theorem suffix_dropLeadDash (l : List Char) : dropLeadDash l <:+ l := by
  cases l with
  | nil => exact List.suffix_refl _
  | cons a as =>
    by_cases ha : a = '-'
    · simp only [dropLeadDash, ha, if_true]
      exact ⟨[a], by simp [ha]⟩
    · simp only [dropLeadDash, ha, if_false]
      exact List.suffix_refl _

theorem reverse_suffix_isPrefixOf {l₁ l₂ : List Char} (h : l₁ <:+ l₂) :
    l₁.reverse <+: l₂.reverse := by
  obtain ⟨t, rfl⟩ := h
  exact ⟨t.reverse, by rw [← List.reverse_append]⟩

theorem take_isPrefixOf (n : Nat) (l : List Char) : l.take n <+: l :=
  ⟨l.drop n, List.take_append_drop n l⟩

theorem dropTrailDash_isPrefixOf (l : List Char) : dropTrailDash l <+: l := by
  have h := reverse_suffix_isPrefixOf (suffix_dropLeadDash l.reverse)
  rwa [List.reverse_reverse] at h

theorem head_of_isPrefixOf {l₁ l₂ : List Char} (h : l₁ <+: l₂) {d : Char}
    (hd : l₁.head? = some d) : l₂.head? = some d := by
  obtain ⟨t, rfl⟩ := h
  cases l₁ with
  | nil => simp at hd
  | cons a as => simpa using hd

theorem chain_of_isPrefixOf {l₁ l₂ : List Char} (h : l₁ <+: l₂)
    (hc : NoDoubleDash l₂) : NoDoubleDash l₁ :=
  List.Chain'.prefix hc h

theorem getLast_dropTrailDash {l : List Char} (h : NoDoubleDash l) :
    ∀ d, (dropTrailDash l).getLast? = some d → d ≠ '-' := by
  intro d hd
  rw [dropTrailDash, List.getLast?_reverse] at hd
  exact head_dropLeadDash (noDoubleDash_reverse h) d hd

theorem dropTrailDash_id {l : List Char}
    (h : ∀ d, l.getLast? = some d → d ≠ '-') : dropTrailDash l = l := by
  rw [dropTrailDash, dropLeadDash_id, List.reverse_reverse]
  intro d hd
  rw [List.head?_reverse] at hd
  exact h d hd

theorem mem_of_getElem?_some {l : List Char} {i : Nat} {a : Char}
    (h : l[i]? = some a) : a ∈ l := by
  obtain ⟨hlt, heq⟩ := List.getElem?_eq_some.mp h
  exact heq ▸ List.getElem_mem hlt

theorem lastIdxOf_eq_none {c : Char} :
    ∀ {l : List Char}, lastIdxOf c l = none → c ∉ l := by
  intro l
  induction l with
  | nil => intro _ hc; exact (List.not_mem_nil c) hc
  | cons a as ih =>
    intro h hc
    unfold lastIdxOf at h
    cases hm : lastIdxOf c as with
    | some i => rw [hm] at h; cases h
    | none =>
      rw [hm] at h
      by_cases hac : a = c
      · rw [if_pos hac] at h; cases h
      · rcases List.mem_cons.mp hc with h' | h'
        · exact hac h'.symm
        · exact ih hm h'

theorem lastIdxOf_eq_some {c : Char} :
    ∀ {l : List Char} {i : Nat}, lastIdxOf c l = some i →
      l[i]? = some c ∧ ∀ j, i < j → l[j]? ≠ some c := by
  intro l
  induction l with
  | nil => intro i h; cases h
  | cons a as ih =>
    intro i h
    unfold lastIdxOf at h
    cases hm : lastIdxOf c as with
    | some k =>
      rw [hm] at h
      injection h with h
      subst h
      obtain ⟨h1, h2⟩ := ih hm
      refine ⟨by simpa using h1, ?_⟩
      intro j hj
      match j with
      | 0 => omega
      | j' + 1 =>
        rw [List.getElem?_cons_succ]
        exact h2 j' (by omega)
    | none =>
      rw [hm] at h
      by_cases hac : a = c
      · rw [if_pos hac] at h
        injection h with h
        subst h
        refine ⟨by simp [hac], ?_⟩
        intro j hj
        match j with
        | 0 => omega
        | j' + 1 =>
          rw [List.getElem?_cons_succ]
          intro hcon
          exact lastIdxOf_eq_none hm (mem_of_getElem?_some hcon)
      · rw [if_neg hac] at h; cases h

theorem noDoubleDash_adjacent {l : List Char} (h : NoDoubleDash l) {i : Nat}
    (h1 : l[i]? = some '-') (h2 : l[i + 1]? = some '-') : False := by
  rw [NoDoubleDash, List.chain'_iff_get] at h
  obtain ⟨hlt1, he1⟩ := List.getElem?_eq_some.mp h1
  obtain ⟨hlt2, he2⟩ := List.getElem?_eq_some.mp h2
  refine h i (by omega) ⟨?_, ?_⟩
  · rw [List.get_eq_getElem]; exact he1
  · rw [List.get_eq_getElem]; exact he2

theorem truncateTitle_props {l : List Char} (hch : NoDoubleDash l)
    (hh : ∀ d, l.head? = some d → d ≠ '-')
    (hl : ∀ d, l.getLast? = some d → d ≠ '-') :
    (truncateTitle l).length ≤ 36 ∧ NoDoubleDash (truncateTitle l) ∧
    (∀ d, (truncateTitle l).head? = some d → d ≠ '-') ∧
    (∀ d, (truncateTitle l).getLast? = some d → d ≠ '-') ∧
    (∀ c ∈ truncateTitle l, c ∈ l) := by
  by_cases hlen : l.length ≤ 36
  · have e : truncateTitle l = l := by
      unfold truncateTitle; rw [if_pos hlen]
    rw [e]
    exact ⟨hlen, hch, hh, hl, fun c hc => hc⟩
  · have htpre : l.take 36 <+: l := take_isPrefixOf _ _
    have htch : NoDoubleDash (l.take 36) := List.Chain'.prefix hch htpre
    have htlen : (l.take 36).length = 36 := by
      rw [List.length_take]; omega
    cases hidx : lastIdxOf '-' (l.take 36) with
    | none =>
      have e : truncateTitle l = l.take 36 := by
        unfold truncateTitle; rw [if_neg hlen, hidx]
      rw [e]
      refine ⟨by omega, htch, ?_, ?_, fun c hc => htpre.subset hc⟩
      · intro d hd; exact hh d (head_of_isPrefixOf htpre hd)
      · intro d hd hcon
        subst hcon
        rw [List.getLast?_eq_getElem?] at hd
        exact lastIdxOf_eq_none hidx (mem_of_getElem?_some hd)
    | some i =>
      obtain ⟨hi1, hi2⟩ := lastIdxOf_eq_some hidx
      have hilt : i < 36 := by
        obtain ⟨hlt, _⟩ := List.getElem?_eq_some.mp hi1
        omega
      by_cases h18 : 18 < i
      · have e : truncateTitle l = (l.take 36).take i := by
          unfold truncateTitle; rw [if_neg hlen, hidx]; exact if_pos h18
        rw [e]
        have hpre2 : (l.take 36).take i <+: l.take 36 := take_isPrefixOf _ _
        have hpre3 : (l.take 36).take i <+: l := hpre2.trans htpre
        have hleni : ((l.take 36).take i).length = i := by
          rw [List.length_take]; omega
        refine ⟨by omega, List.Chain'.prefix htch hpre2, ?_, ?_, fun c hc => hpre3.subset hc⟩
        · intro d hd; exact hh d (head_of_isPrefixOf hpre3 hd)
        · intro d hd hcon
          subst hcon
          rw [List.getLast?_eq_getElem?, hleni, List.getElem?_take] at hd
          rw [if_pos (by omega)] at hd
          have hprev : (l.take 36)[i - 1]? = some '-' := hd
          have hstep : (l.take 36)[(i - 1) + 1]? = some '-' := by
            rw [show i - 1 + 1 = i by omega]; exact hi1
          exact noDoubleDash_adjacent htch hprev hstep
      · have e : truncateTitle l = l.take 36 := by
          unfold truncateTitle; rw [if_neg hlen, hidx]; exact if_neg h18
        rw [e]
        refine ⟨by omega, htch, ?_, ?_, fun c hc => htpre.subset hc⟩
        · intro d hd; exact hh d (head_of_isPrefixOf htpre hd)
        · intro d hd hcon
          subst hcon
          rw [List.getLast?_eq_getElem?, htlen] at hd
          exact hi2 35 (by omega) hd

theorem replaceInvalid_id {l : List Char}
    (h : ∀ c ∈ l, isInvalidChar c = false) : replaceInvalid l = l := by
  induction l with
  | nil => rfl
  | cons a as ih =>
    have ha := h a (List.mem_cons_self _ _)
    simp only [replaceInvalid, List.map_cons] at ih ⊢
    rw [if_neg (by simp [ha]), ih (fun c hc => h c (List.mem_cons_of_mem _ hc))]

theorem sanitizeTitleL_sanitized (l : List Char) : SanitizedL (sanitizeTitleL l) := by
  have f0 : ∀ c ∈ replaceInvalid l, isInvalidChar c = false := by
    intro c hc
    rcases List.mem_map.mp hc with ⟨a, _, rfl⟩
    by_cases h : isInvalidChar a
    · rw [if_pos h]; decide
    · rw [if_neg h]; simpa using h
  have f1 : ∀ c ∈ collapseAux isJsWs '-' false (replaceInvalid l),
      isInvalidChar c = false ∧ isJsWs c = false := by
    intro c hc
    rcases mem_collapseAux hc with rfl | ⟨h1, h2⟩
    · exact ⟨by decide, by decide⟩
    · exact ⟨f0 c h1, h2⟩
  have f2 : ∀ c ∈ collapseAux (fun c => c == '-') '-' false
      (collapseAux isJsWs '-' false (replaceInvalid l)),
      isInvalidChar c = false ∧ isJsWs c = false := by
    intro c hc
    rcases mem_collapseAux hc with rfl | ⟨h1, _⟩
    · exact ⟨by decide, by decide⟩
    · exact f1 c h1
  have f2ch : NoDoubleDash (collapseAux (fun c => c == '-') '-' false
      (collapseAux isJsWs '-' false (replaceInvalid l))) :=
    (dashCollapse_chain _ false).1
  have f3mem : ∀ c ∈ dropTrailDash (dropLeadDash
      (collapseAux (fun c => c == '-') '-' false
        (collapseAux isJsWs '-' false (replaceInvalid l)))),
      isInvalidChar c = false ∧ isJsWs c = false := by
    intro c hc
    exact f2 c (subset_dropLeadDash ((dropTrailDash_isPrefixOf _).subset hc))
  have f3ch : NoDoubleDash (dropTrailDash (dropLeadDash
      (collapseAux (fun c => c == '-') '-' false
        (collapseAux isJsWs '-' false (replaceInvalid l))))) :=
    List.Chain'.prefix (chain_dropLeadDash f2ch) (dropTrailDash_isPrefixOf _)
  have f3head : ∀ d, (dropTrailDash (dropLeadDash
      (collapseAux (fun c => c == '-') '-' false
        (collapseAux isJsWs '-' false (replaceInvalid l))))).head? = some d →
      d ≠ '-' := by
    intro d hd
    exact head_dropLeadDash f2ch d (head_of_isPrefixOf (dropTrailDash_isPrefixOf _) hd)
  have f3last := getLast_dropTrailDash (chain_dropLeadDash f2ch)
  obtain ⟨p1, p2, p3, p4, p5⟩ := truncateTitle_props f3ch f3head f3last
  exact ⟨fun c hc => f3mem c (p5 c hc), p2, p3, p4, p1⟩

theorem sanitizeTitleL_id {l : List Char} (h : SanitizedL l) :
    sanitizeTitleL l = l := by
  obtain ⟨hmem, hch, hh, hl, hlen⟩ := h
  rw [sanitizeTitleL, replaceInvalid_id (fun c hc => (hmem c hc).1),
    collapseAux_id_of_not (fun c hc => (hmem c hc).2) false,
    dashCollapse_id l false hch (by intro h'; cases h'),
    dropLeadDash_id hh, dropTrailDash_id hl]
  simp [truncateTitle, hlen]

theorem sanitizeTitleL_idem (l : List Char) :
    sanitizeTitleL (sanitizeTitleL l) = sanitizeTitleL l :=
  sanitizeTitleL_id (sanitizeTitleL_sanitized l)

/-! ### Claim theorems: filename sanitiser and asset fetcher -/

/-- Claim C6, counterexample: sanitising the title "My Title!!" with timestamp
2024-01-05T10:00:00Z does not give "2024-01-05-My-Title", because the
exclamation marks are not in the replaced character set. -/
theorem sanitizeFileName_example_counterexample :
    sanitizeFileName "My Title!!" "2024-01-05T10:00:00Z" ≠ "2024-01-05-My-Title" := by
  decide

/-- Claim C6, amended: `sanitizeFileName` applied to title "My Title!!" and
timestamp 2024-01-05T10:00:00Z returns exactly "2024-01-05-My-Title!!"; the
invalid characters are replaced by dashes, whitespace runs collapse to single
dashes, dash runs collapse, and edge dashes are trimmed, but `!` is not in
the replaced set and is preserved. -/
theorem sanitizeFileName_example_eval :
    sanitizeFileName "My Title!!" "2024-01-05T10:00:00Z" = "2024-01-05-My-Title!!" := by
  decide

/-- Claim C7: `sanitizeFileName` is pure and idempotent on its title portion:
for every title and timestamp (whose date component has the usual ten
characters), sanitising the title portion of its output again with the same
timestamp yields the same stem as the first application. -/
theorem sanitizeFileName_title_idem (title ts : String)
    (h : (dateStemL ts.data).length = 10) :
    sanitizeFileName (stemTitlePortion (sanitizeFileName title ts)) ts =
      sanitizeFileName title ts := by
  have hdrop : (stemTitlePortion (sanitizeFileName title ts)).data =
      sanitizeTitleL title.data := by
    show (sanitizeFileName title ts).data.drop 11 = _
    show (dateStemL ts.data ++ '-' :: sanitizeTitleL title.data).drop 11 = _
    rw [show (11 : Nat) = (dateStemL ts.data).length + 1 by omega]
    rw [List.drop_append]
    rfl
  calc sanitizeFileName (stemTitlePortion (sanitizeFileName title ts)) ts
      = ⟨dateStemL ts.data ++ '-' ::
          sanitizeTitleL (stemTitlePortion (sanitizeFileName title ts)).data⟩ := rfl
    _ = ⟨dateStemL ts.data ++ '-' :: sanitizeTitleL (sanitizeTitleL title.data)⟩ := by
          rw [hdrop]
    _ = ⟨dateStemL ts.data ++ '-' :: sanitizeTitleL title.data⟩ := by
          rw [sanitizeTitleL_idem]
    _ = sanitizeFileName title ts := rfl

/-- Claim C7, witness: the idempotence theorem instantiated at a concrete title
and timestamp. -/
theorem sanitizeFileName_title_idem_witness :
    sanitizeFileName
        (stemTitlePortion (sanitizeFileName "My Title!!" "2024-01-05T10:00:00Z"))
        "2024-01-05T10:00:00Z" =
      sanitizeFileName "My Title!!" "2024-01-05T10:00:00Z" :=
  sanitizeFileName_title_idem "My Title!!" "2024-01-05T10:00:00Z" (by decide)

/-- Claim C3: at a concrete input, `downloadImage` computes the attachment path
"Hoarder/attachments/A1-01-05-My-Title.png", retaining the month and day of
the fetch instant (only the year is dropped by the split-slice-join), the
path differs when the same asset and title are fetched on another day, and it
differs from the date-free path the specification asserts. -/
theorem downloadImagePath_eval :
    downloadImagePath sampleSettings "2024-01-05T10:00:00.000Z"
        "https://example.com/pic.png" "A1" "My Title" =
      "Hoarder/attachments/A1-01-05-My-Title.png" ∧
    downloadImagePath sampleSettings "2024-02-06T10:00:00.000Z"
        "https://example.com/pic.png" "A1" "My Title" ≠
      downloadImagePath sampleSettings "2024-01-05T10:00:00.000Z"
        "https://example.com/pic.png" "A1" "My Title" ∧
    downloadImagePath sampleSettings "2024-01-05T10:00:00.000Z"
        "https://example.com/pic.png" "A1" "My Title" ≠
      specAssetPath sampleSettings "2024-01-05T10:00:00.000Z"
        "https://example.com/pic.png" "A1" "My Title" := by
  refine ⟨by decide, by decide, by decide⟩

/-- Claim C4: the credential decision of `downloadImage` is a string-prefix
test, not an origin comparison: a third-party host whose URL merely starts
with the configured origin receives the Authorization header even though its
origin differs from the configured API origin. -/
theorem attachAuthHeader_prefix_leak :
    attachAuthHeader sampleSettings "https://api.hoarder.app.evil.test/img.jpg" = true ∧
    jsUrlOrigin "https://api.hoarder.app.evil.test/img.jpg" ≠
      jsUrlOrigin sampleSettings.apiBaseUrl := by
  refine ⟨by decide, by decide⟩

/-! ### Claim theorems: notes extraction and renderer -/

/-- Claim C9: `extractNotesFromFile` always returns a pair of optional strings
and never throws: a path that does not resolve to a file or a failing read
yields two `none`s, content without a Notes section yields a `none` current
note, frontmatter without an `original_note` key yields a `none` original
note, and the engine's reconciliation step performs no push when either field
is `none`. -/
theorem extractNotes_guarded (env : FileEnv) :
    (env.isFile = false → extractNotesFromFile env = (none, none)) ∧
    (∀ e, env.readResult = Except.error e →
      extractNotesFromFile env = (none, none)) ∧
    (∀ content, env.readResult = Except.ok content →
      findSubAfter ("## Notes\n\n").data content.data = none →
      (extractNotesFromFile env).1 = none) ∧
    (env.frontmatter = none → (extractNotesFromFile env).2 = none) ∧
    (∀ fm, env.frontmatter = some fm → fm.lookup "original_note" = none →
      (extractNotesFromFile env).2 = none) ∧
    (∀ i bNote cur orig ok, cur = none ∨ orig = none →
      syncNotesStep i bNote cur orig ok =
        { pushed := false, note := bNote, updatedDelta := 0, effects := [] }) := by
  refine ⟨?_, ?_, ?_, ?_, ?_, ?_⟩
  · intro h; simp [extractNotesFromFile, h]
  · intro e he
    by_cases hf : env.isFile = false
    · simp [extractNotesFromFile, hf]
    · simp [extractNotesFromFile, hf, he]
  · intro content hc hno
    by_cases hf : env.isFile = false
    · simp [extractNotesFromFile, hf]
    · simp [extractNotesFromFile, hf, hc, extractNotesSection, hno]
  · intro hfm
    by_cases hf : env.isFile = false
    · simp [extractNotesFromFile, hf]
    · cases hr : env.readResult with
      | error e => simp [extractNotesFromFile, hf, hr]
      | ok content => simp [extractNotesFromFile, hf, hr, hfm]
  · intro fm hfm hlk
    by_cases hf : env.isFile = false
    · simp [extractNotesFromFile, hf]
    · cases hr : env.readResult with
      | error e => simp [extractNotesFromFile, hf, hr]
      | ok content => simp [extractNotesFromFile, hf, hr, hfm, hlk]
  · intro i bNote cur orig ok h
    rcases h with rfl | rfl
    · cases orig <;> rfl
    · cases cur <;> rfl

/-- Claim C9, witness: the extractor evaluated on a failing read over a path
that is no file. -/
theorem extractNotes_guarded_witness :
    extractNotesFromFile
        { isFile := false, readResult := Except.error "boom", frontmatter := none } =
      (none, none) :=
  (extractNotes_guarded
    { isFile := false, readResult := Except.error "boom", frontmatter := none }).1 rfl

/-- Claim C10: for every bookmark whose tag list is empty, the rendered
document still contains the tags key followed by a single dangling empty list
item (a "  - " line with no value), because the renderer joins the escaped
tag names into a pre-written list-item template. -/
theorem formatBookmark_empty_tags (settings : HoarderSettings) (env : RenderEnv)
    (b : HoarderBookmark) (title : String) (htags : b.tags = []) :
    ∃ pre post : String,
      (formatBookmarkAsMarkdown settings env b title).1 =
        pre ++ "tags:\n  - \n" ++ post := by
  refine ⟨frontmatterPrefix settings b title ++ "\n",
    "note: " ++ frontmatterSuffix b title ++ (bookmarkBody settings env b title).1, ?_⟩
  have hJ : joinStrSep "\n  - " ((b.tags.map fun t => t.name).map escapeTag) = "" := by
    rw [htags]; rfl
  show bookmarkFrontmatter settings b title ++ (bookmarkBody settings env b title).1 = _
  rw [bookmarkFrontmatter, hJ]
  simp only [String.append_empty, String.append_assoc]
  congr 1

/-- Claim C10, witness: the dangling-tag theorem instantiated at a concrete
tagless bookmark. -/
theorem formatBookmark_empty_tags_witness :
    ∃ pre post : String,
      (formatBookmarkAsMarkdown sampleSettings
          { asset := { attachmentsFolderExists := true, fileExists := fun _ => false,
                       fetchOk := fun _ => true, nowIso := "2024-01-05T10:00:00.000Z" },
            htmlConvert := fun _ => none }
          { id := "b1", createdAt := "2024-01-05T10:00:00.000Z", title := some "T",
            archived := false, favourited := false, taggingStatus := none,
            note := none, summary := none, tags := [],
            content := { type := ContentType.text } }
          "T").1 =
        pre ++ "tags:\n  - \n" ++ post :=
  formatBookmark_empty_tags _ _ _ _ rfl

/-! ### Claim theorems: sync engine -/

theorem bookmarkExcluded_of_tag (settings : HoarderSettings) (b : HoarderBookmark)
    (hfav : b.favourited = false)
    (h : ∃ t ∈ b.tags, ∃ ex ∈ settings.excludedTags,
      toLowerStr t.name = toLowerStr ex) :
    bookmarkExcluded settings b = true := by
  obtain ⟨t, ht, ex, hex, heq⟩ := h
  have hlen : 0 < settings.excludedTags.length :=
    List.length_pos.mpr (List.ne_nil_of_mem hex)
  have hmem : toLowerStr ex ∈ (b.tags.map fun t => toLowerStr t.name) := by
    rw [← heq]
    exact List.mem_map.mpr ⟨t, ht, rfl⟩
  simp only [bookmarkExcluded, hfav, Bool.not_false, Bool.true_and]
  simp [hlen]
  exact ⟨ex, hex, t, ht, heq⟩

/-- Claim C8: a non-favourited bookmark whose tag names intersect the excluded
list case-insensitively is skipped before any file operation (no effects, no
other counter) with the tag-excluded counter advanced by one, and a
favourited bookmark is never excluded by tag, for any tag set and excluded
list. -/
theorem processBookmark_tag_exclusion (settings : HoarderSettings) (env : SyncEnv)
    (created : List String) :
    (∀ b : HoarderBookmark, b.favourited = false →
      (∃ t ∈ b.tags, ∃ ex ∈ settings.excludedTags,
        toLowerStr t.name = toLowerStr ex) →
      processBookmark settings env created b =
        { created := created, note := b.note, dTotal := 0, dSkipped := 0,
          dUpdated := 0, dExcluded := 1, effects := [] }) ∧
    (∀ b : HoarderBookmark, b.favourited = true →
      (processBookmark settings env created b).dExcluded = 0) := by
  constructor
  · intro b hfav h
    have hx := bookmarkExcluded_of_tag settings b hfav h
    simp [processBookmark, hx]
  · intro b hfav
    have hx : bookmarkExcluded settings b = false := by
      simp [bookmarkExcluded, hfav]
    simp only [processBookmark, hx, Bool.false_eq_true, if_false]
    split
    · split <;> rfl
    · rfl

/-- Claim C8, witness: a concrete non-favourited bookmark tagged "Draft" is
excluded under the excluded list ["draft"]. -/
theorem processBookmark_tag_exclusion_witness :
    processBookmark { sampleSettings with excludedTags := ["draft"] } sampleSyncEnv []
        { id := "b1", createdAt := "2024-01-05T10:00:00.000Z", title := some "T",
          archived := false, favourited := false, taggingStatus := none,
          note := none, summary := none,
          tags := [{ id := "t1", name := "Draft", attachedBy := AttachedBy.human }],
          content := { type := ContentType.text } } =
      { created := [], note := none, dTotal := 0, dSkipped := 0, dUpdated := 0,
        dExcluded := 1, effects := [] } :=
  (processBookmark_tag_exclusion _ _ _).1 _ rfl
    ⟨{ id := "t1", name := "Draft", attachedBy := AttachedBy.human }, by decide,
      "draft", by decide, by decide⟩

/-- Claim C2: the Idle/Running state machine of `syncBookmarks`: a call while a
pass is running returns the "Sync already in progress" failure immediately
with the state unchanged and no effect performed; a call with an empty API
key returns the configuration failure without entering Running (state
unchanged, no effect); and every call made in the Idle state ends with the
re-entrancy flag cleared, whether the pass succeeded or failed. -/
theorem syncBookmarks_state_machine (st : SyncState) (env : SyncEnv) :
    (st.isSyncing = true →
      syncBookmarks st env =
        (st, { success := false, message := "Sync already in progress" }, [])) ∧
    (st.isSyncing = false → st.settings.apiKey = "" →
      syncBookmarks st env =
        (st, { success := false, message := "Hoarder API key not configured" }, [])) ∧
    (st.isSyncing = false → (syncBookmarks st env).1.isSyncing = false) := by
  refine ⟨?_, ?_, ?_⟩
  · intro h; simp [syncBookmarks, h]
  · intro h hk; simp [syncBookmarks, h, hk]
  · intro h
    by_cases hk : st.settings.apiKey = ""
    · simp [syncBookmarks, h, hk]
    · simp only [syncBookmarks, h, hk, Bool.false_eq_true, if_false]
      split <;> rfl

/-- Claim C2, witness: a call in the Idle state with an empty API key fails
without entering Running. -/
theorem syncBookmarks_state_machine_witness :
    syncBookmarks
        { isSyncing := false, skippedFiles := 0,
          settings := { sampleSettings with apiKey := "" } } sampleSyncEnv =
      ({ isSyncing := false, skippedFiles := 0,
         settings := { sampleSettings with apiKey := "" } },
       { success := false, message := "Hoarder API key not configured" }, []) :=
  (syncBookmarks_state_machine _ _).2.1 rfl rfl

theorem syncNotesStep_spec (i : String) (bNote cur orig : Option String)
    (ok : Bool) :
    ((Effect.netPush i (cur.getD "") ∈ (syncNotesStep i bNote cur orig ok).effects) ↔
      (cur ≠ none ∧ orig ≠ none ∧ cur ≠ orig ∧ cur ≠ some (bNote.getD ""))) ∧
    ((cur ≠ none ∧ orig ≠ none ∧ cur ≠ orig ∧ cur ≠ some (bNote.getD "") ∧
        ok = true) →
      (syncNotesStep i bNote cur orig ok).note = cur ∧
      (syncNotesStep i bNote cur orig ok).updatedDelta = 1) ∧
    (¬(cur ≠ none ∧ orig ≠ none ∧ cur ≠ orig ∧ cur ≠ some (bNote.getD "") ∧
        ok = true) →
      (syncNotesStep i bNote cur orig ok).note = bNote ∧
      (syncNotesStep i bNote cur orig ok).updatedDelta = 0) := by
  cases cur with
  | none => simp [syncNotesStep]
  | some c =>
    cases orig with
    | none => simp [syncNotesStep]
    | some o =>
      by_cases hco : c = o
      · simp [syncNotesStep, hco]
      · by_cases hcr : c = bNote.getD ""
        · simp [syncNotesStep, hco, hcr]
        · cases ok with
          | true => simp [syncNotesStep, hco, hcr]
          | false => simp [syncNotesStep, hco, hcr]

theorem netPush_not_in_downloadImage (settings : HoarderSettings)
    (env : AssetFetchEnv) (url assetId title i n : String) :
    Effect.netPush i n ∉ (downloadImage settings env url assetId title).2 := by
  unfold downloadImage
  by_cases h1 : env.attachmentsFolderExists <;>
    by_cases h2 : env.fileExists (downloadImagePath settings env.nowIso url assetId title) <;>
      by_cases h3 : env.fetchOk url <;>
        simp [h1, h2, h3]

theorem netPush_not_in_imagePart (settings : HoarderSettings) (env : RenderEnv)
    (b : HoarderBookmark) (title i n : String) :
    Effect.netPush i n ∉ (bookmarkImagePart settings env b title).2 := by
  unfold bookmarkImagePart
  split_ifs <;> try simp
  all_goals
    split <;>
      simpa using netPush_not_in_downloadImage settings env.asset _ _ title i n

theorem netPush_not_in_body (settings : HoarderSettings) (env : RenderEnv)
    (b : HoarderBookmark) (title i n : String) :
    Effect.netPush i n ∉ (bookmarkBody settings env b title).2 :=
  netPush_not_in_imagePart settings env b title i n

/-- Claim C1: during a pass with bidirectional notes enabled, for a bookmark
that is not tag-excluded and whose document already exists, the engine pushes
the document's current note to the remote iff the extracted current and
original notes are both present, the current note differs from the original
marker and from the remote record's note (read as a string, null as empty);
on a successful push the in-memory record's note becomes the current note and
the remote-updated delta is one, and in every other case, a failed push
included, both are unchanged. -/
theorem processBookmark_note_push (settings : HoarderSettings) (env : SyncEnv)
    (created : List String) (b : HoarderBookmark)
    (hsync : settings.syncNotesToHoarder = true)
    (hexcl : bookmarkExcluded settings b = false)
    (hfile : env.fileExists (bookmarkFileName settings env b) = true)
    (cur orig : Option String)
    (hex : extractNotesFromFile (env.fileEnv (bookmarkFileName settings env b)) =
      (cur, orig)) :
    ((Effect.netPush b.id (cur.getD "") ∈
        (processBookmark settings env created b).effects) ↔
      (cur ≠ none ∧ orig ≠ none ∧ cur ≠ orig ∧ cur ≠ some (b.note.getD ""))) ∧
    ((cur ≠ none ∧ orig ≠ none ∧ cur ≠ orig ∧ cur ≠ some (b.note.getD "") ∧
        env.pushOk b.id (cur.getD "") = true) →
      (processBookmark settings env created b).note = cur ∧
      (processBookmark settings env created b).dUpdated = 1) ∧
    (¬(cur ≠ none ∧ orig ≠ none ∧ cur ≠ orig ∧ cur ≠ some (b.note.getD "") ∧
        env.pushOk b.id (cur.getD "") = true) →
      (processBookmark settings env created b).note = b.note ∧
      (processBookmark settings env created b).dUpdated = 0) := by
  obtain ⟨s1, s2, s3⟩ :=
    syncNotesStep_spec b.id b.note cur orig (env.pushOk b.id (cur.getD ""))
  have hnp := fun b' =>
    netPush_not_in_body settings (renderEnvOf env) b'
      (getBookmarkTitle env.parseUrl b) b.id (cur.getD "")
  by_cases hupd : settings.updateExistingFiles <;>
    refine ⟨?_, fun hc => ?_, fun hc => ?_⟩ <;>
    simp only [processBookmark, hexcl, Bool.false_eq_true, if_false, hfile,
      Bool.true_or, if_true, hsync, hex, hupd, formatBookmarkAsMarkdown,
      List.mem_append, List.mem_cons, List.mem_singleton, List.not_mem_nil,
      List.append_assoc, List.cons_append, List.nil_append] <;>
    (try simp only [hnp _, or_false, false_or, reduceCtorEq]) <;>
    first
    | exact s1
    | exact s2 hc
    | exact s3 hc

/-- Claim C1, witness: a bookmark whose document holds current note "B" over
original marker "A" with remote note "A" is pushed; the in-memory note
becomes "B" and the remote-updated delta is one. -/
theorem processBookmark_note_push_witness :
    (processBookmark sampleSettings sampleNoteEnv []
        { id := "b1", createdAt := "2024-01-05T10:00:00.000Z", title := some "T",
          archived := false, favourited := false, taggingStatus := none,
          note := some "A", summary := none, tags := [],
          content := { type := ContentType.text } }).note = some "B" ∧
    (processBookmark sampleSettings sampleNoteEnv []
        { id := "b1", createdAt := "2024-01-05T10:00:00.000Z", title := some "T",
          archived := false, favourited := false, taggingStatus := none,
          note := some "A", summary := none, tags := [],
          content := { type := ContentType.text } }).dUpdated = 1 :=
  (processBookmark_note_push sampleSettings sampleNoteEnv _ _ rfl (by decide) rfl
      (some "B") (some "A") (by decide)).2.1
    ⟨by decide, by decide, by decide, by decide, rfl⟩

/-! ### Claim theorems: title resolver -/

theorem str_eq_of_data {s t : String} (h : s.data = t.data) : s = t := by
  cases s; cases t; exact congrArg String.mk h

theorem mkStr_ne_empty {l : List Char} (h : l ≠ []) : (⟨l⟩ : String) ≠ "" := by
  intro hc
  exact h (congrArg String.data hc)

theorem append_ne_empty_right (s t : String) (h : t ≠ "") : s ++ t ≠ "" := by
  intro hc
  have h1 : s.data ++ t.data = [] := by
    have := congrArg String.data hc
    rwa [String.data_append] at this
  exact h (str_eq_of_data (by simpa using (List.append_eq_nil.mp h1).2))

theorem append_ne_empty_left (s t : String) (h : s ≠ "") : s ++ t ≠ "" := by
  intro hc
  have h1 : s.data ++ t.data = [] := by
    have := congrArg String.data hc
    rwa [String.data_append] at this
  exact h (str_eq_of_data (by simpa using (List.append_eq_nil.mp h1).1))

theorem fallbackTitle_ne (b : HoarderBookmark) : fallbackTitle b ≠ "" := by
  unfold fallbackTitle
  apply append_ne_empty_left
  apply append_ne_empty_right
  decide

theorem strTruthy_some {s : String} (h : strTruthy (some s) = true) : s ≠ "" := by
  simpa [strTruthy] using h

theorem contentTitle_ne (parse : String → Option UrlParts) (b : HoarderBookmark)
    (htext : ∀ t, b.content.type = ContentType.text → b.content.text = some t →
      t ≠ "" → firstLineL t.data ≠ [])
    (hhost : ∀ u p, parse u = some p → stripWww p.hostname ≠ "" ∧ p.hostname ≠ "")
    (hfile : ∀ f, b.content.fileName = some f → f ≠ "" → stripExtL f.data ≠ []) :
    contentTitle parse b ≠ "" := by
  unfold contentTitle
  cases hct : b.content.type with
  | link =>
    by_cases h1 : strTruthy b.content.title
    · cases hco : b.content.title with
      | none => rw [hco] at h1; simp [strTruthy] at h1
      | some s =>
        have hs : s ≠ "" := strTruthy_some (hco ▸ h1)
        simp [hco, strTruthy, hs]
    · simp only [h1, Bool.false_eq_true, if_false]
      by_cases h2 : strTruthy b.content.url
      · cases hcu : b.content.url with
        | none => rw [hcu] at h2; simp [strTruthy] at h2
        | some u =>
          have hu : u ≠ "" := strTruthy_some (hcu ▸ h2)
          simp only [hcu, Option.getD_some]
          rw [if_pos (by simp [strTruthy, hu])]
          unfold linkUrlTitle
          cases hp : parse u with
          | none => simpa using hu
          | some parts =>
            show (if dashUnderscoreToSpace
                (stripExtL (lastSeg (splitOnCharL '/' parts.pathname.data))) ≠ [] then
                (⟨dashUnderscoreToSpace
                  (stripExtL (lastSeg (splitOnCharL '/' parts.pathname.data)))⟩ : String)
              else stripWww parts.hostname) ≠ ""
            by_cases hpt : dashUnderscoreToSpace
                (stripExtL (lastSeg (splitOnCharL '/' parts.pathname.data))) ≠ []
            · rw [if_pos hpt]
              exact mkStr_ne_empty hpt
            · rw [if_neg hpt]
              exact (hhost u parts hp).1
      · simp only [h2, Bool.false_eq_true, if_false]
        exact fallbackTitle_ne b
  | text =>
    by_cases h1 : strTruthy b.content.text
    · cases hct2 : b.content.text with
      | none => rw [hct2] at h1; simp [strTruthy] at h1
      | some t =>
        have hts : t ≠ "" := strTruthy_some (hct2 ▸ h1)
        have hfl : firstLineL t.data ≠ [] := htext t hct hct2 hts
        simp only [hct2, Option.getD_some]
        rw [if_pos (by simp [strTruthy, hts])]
        by_cases hlen : (firstLineL t.data).length ≤ 100
        · rw [if_pos hlen]
          exact mkStr_ne_empty hfl
        · rw [if_neg hlen]
          exact append_ne_empty_right _ _ (by decide)
    · simp only [h1, Bool.false_eq_true, if_false]
      exact fallbackTitle_ne b
  | asset =>
    by_cases h1 : strTruthy b.content.fileName
    · cases hcf : b.content.fileName with
      | none => rw [hcf] at h1; simp [strTruthy] at h1
      | some f =>
        have hf : f ≠ "" := strTruthy_some (hcf ▸ h1)
        simp only [hcf, Option.getD_some]
        rw [if_pos (by simp [strTruthy, hf])]
        exact mkStr_ne_empty (hfile f hcf hf)
    · simp only [h1, Bool.false_eq_true, if_false]
      by_cases h2 : strTruthy b.content.sourceUrl
      · cases hcs : b.content.sourceUrl with
        | none => rw [hcs] at h2; simp [strTruthy] at h2
        | some u =>
          have hu : u ≠ "" := strTruthy_some (hcs ▸ h2)
          simp only [hcs, Option.getD_some]
          rw [if_pos (by simp [strTruthy, hu])]
          unfold assetSourceTitle
          cases hp : parse u with
          | none => simpa using hu
          | some parts =>
            show (if lastSeg (splitOnCharL '/' parts.pathname.data) ≠ [] then
                (⟨lastSeg (splitOnCharL '/' parts.pathname.data)⟩ : String)
              else parts.hostname) ≠ ""
            by_cases hseg : lastSeg (splitOnCharL '/' parts.pathname.data) ≠ []
            · rw [if_pos hseg]
              exact mkStr_ne_empty hseg
            · rw [if_neg hseg]
              exact (hhost u parts hp).2
      · simp only [h2, Bool.false_eq_true, if_false]
        exact fallbackTitle_ne b
  | unknown => exact fallbackTitle_ne b

/-- Claim C5, counterexample: a text bookmark with no titles whose body starts
with a newline resolves to the empty string, so the title resolver does not
always return a non-empty string. -/
theorem getBookmarkTitle_empty_counterexample :
    getBookmarkTitle (fun _ => none)
      { id := "b1", createdAt := "2024-01-05T10:00:00Z", title := none,
        archived := false, favourited := false, taggingStatus := none,
        note := none, summary := none, tags := [],
        content := { type := ContentType.text, text := some "\nhello" } } = "" := by
  decide

/-- Claim C5, amended: the title resolver is total (never fails) and follows
the priority cascade — the record title first, then the content-level cascade
per kind, with the Bookmark-id-date fallback; the result is non-empty
whenever the cascade source it selects is non-empty (the first line of a text
body, a parsed hostname both bare and www-stripped, a filename that is not
only an extension); in degenerate cases such as a text body starting with a
newline the result is the empty string. -/
theorem getBookmarkTitle_cascade (parse : String → Option UrlParts)
    (b : HoarderBookmark)
    (htext : ∀ t, b.content.type = ContentType.text → b.content.text = some t →
      t ≠ "" → firstLineL t.data ≠ [])
    (hhost : ∀ u p, parse u = some p → stripWww p.hostname ≠ "" ∧ p.hostname ≠ "")
    (hfile : ∀ f, b.content.fileName = some f → f ≠ "" → stripExtL f.data ≠ []) :
    getBookmarkTitle parse b ≠ "" ∧
    (∀ t, b.title = some t → t ≠ "" → getBookmarkTitle parse b = t) := by
  constructor
  · by_cases hb : strTruthy b.title
    · cases hbt : b.title with
      | none => rw [hbt] at hb; simp [strTruthy] at hb
      | some s =>
        have hs : s ≠ "" := strTruthy_some (hbt ▸ hb)
        simp [getBookmarkTitle, hbt, strTruthy, hs]
    · simp only [getBookmarkTitle, hb, Bool.false_eq_true, if_false]
      exact contentTitle_ne parse b htext hhost hfile
  · intro t ht hne
    simp [getBookmarkTitle, ht, strTruthy, hne]

/-- Claim C5, witness: the cascade theorem instantiated at a bookmark carrying
a record-level title. -/
theorem getBookmarkTitle_cascade_witness :
    getBookmarkTitle (fun _ => none)
        { id := "b1", createdAt := "2024-01-05T10:00:00Z", title := some "T",
          archived := false, favourited := false, taggingStatus := none,
          note := none, summary := none, tags := [],
          content := { type := ContentType.text } } ≠ "" ∧
    (∀ t,
      ({ id := "b1", createdAt := "2024-01-05T10:00:00Z", title := some "T",
         archived := false, favourited := false, taggingStatus := none,
         note := none, summary := none, tags := [],
         content := { type := ContentType.text } } : HoarderBookmark).title =
          some t → t ≠ "" →
      getBookmarkTitle (fun _ => none)
        { id := "b1", createdAt := "2024-01-05T10:00:00Z", title := some "T",
          archived := false, favourited := false, taggingStatus := none,
          note := none, summary := none, tags := [],
          content := { type := ContentType.text } } = t) :=
  getBookmarkTitle_cascade (fun _ => none) _
    (by intro t _ hx; cases hx)
    (by intro u p hx; cases hx)
    (by intro f hx; cases hx)

end Hoarder
